import Mathlib

/-!
Shallow embedding of the chunked streaming encode/decode algorithm and the
model-assembly factories of `stable_audio_tools/models/autoencoders.py`
(repository `NVIDIA/elucidated-text-to-audio`).

Modelling conventions:
* a tensor is modelled along the axis the code manipulates: the time (or
  latent-frame) axis becomes a `List`; batch and channel axes are carried
  pointwise by every slice/paste operation in the source, so they are
  represented once, by the element type of the list;
* the codec encoder/decoder, bottleneck and pretransform are external
  collaborators and enter as function parameters;
* machine integers are `Nat` (no overflow is reachable: all quantities are
  Python ints);
* Python exceptions become an `Except PyErr` result.
-/

namespace ElucidatedAudio

/-- Fields named by assertion messages in `autoencoders.py`.  Each constructor
stands for the literal message string of the corresponding `assert`, e.g.
`latent_dim` for `"latent_dim must be specified in model config"`. -/
inductive ErrField where
  | latent_dim
  | downsampling_ratio
  | io_channels
  | sample_rate
  | encoder_type
  | decoder_type
  deriving DecidableEq

/-- Python exceptions raised by the embedded code paths. -/
inductive PyErr where
  /-- `NameError: name 'i' is not defined` — the chunking loop of
  `encode_audio`/`decode_audio` leaks its index `i`, which the
  `if i + chunk_size != total_size` test then reads; when the loop body never
  ran (total length < chunk size) the read raises `NameError`. -/
  | nameErrorLoopIndex
  /-- `AssertionError` from `assert cond, msg`; the payload identifies which
  message (see `ErrField`). -/
  | assertionError (f : ErrField)
  /-- `ValueError(f"Unknown encoder type {...}")` / decoder analogue. -/
  | valueErrorUnknownEncoder
  | valueErrorUnknownDecoder
  /-- `KeyError` from a mandatory dictionary lookup `cfg[key]`. -/
  | keyErrorModel
  | keyErrorEncoder
  | keyErrorDecoder
  deriving DecidableEq

/-- Decidable equality for `Except` results (needed to evaluate the embedded
functions on concrete inputs). -/
instance {e a : Type} [DecidableEq e] [DecidableEq a] :
    DecidableEq (Except e a)
  | .error x, .error y =>
    if h : x = y then .isTrue (congrArg Except.error h)
    else .isFalse (fun hc => h (Except.error.inj hc))
  | .error _, .ok _ => .isFalse (fun hc => Except.noConfusion hc)
  | .ok _, .error _ => .isFalse (fun hc => Except.noConfusion hc)
  | .ok x, .ok y =>
    if h : x = y then .isTrue (congrArg Except.ok h)
    else .isFalse (fun hc => h (Except.ok.inj hc))

/-- Python `range(0, stop, step)` for `step > 0`: number of elements.
`stop` is an `Int` because the source computes it as
`total_size - chunk_size + 1`, which may be non-positive (empty range). -/
def pyRangeLen (stop : Int) (step : ℕ) : ℕ :=
  (stop.toNat + step - 1) / step

/-- Python `range(0, stop, step)` for `step > 0`: the multiples of `step`
(strictly) below `stop`. -/
def pyRange (stop : Int) (step : ℕ) : List ℕ :=
  (List.range (pyRangeLen stop step)).map (fun k => k * step)

/-- Window-start collection shared by `encode_audio` (lines 793-799, sample
units) and `decode_audio` (lines 861-867, latent units):

    for i in range(0, total_size - chunk_size + 1, hop_size):
        chunks.append(audio[:, :, i : i + chunk_size])
    if i + chunk_size != total_size:
        chunks.append(audio[:, :, -chunk_size:])

The final test reads the leaked loop variable `i`; with an empty range this
raises `NameError`.  The appended final window starts at
`total_size - chunk_size` (it is `x[-chunk_size:]`). -/
def chunkStarts (total chunk hop : ℕ) : Except PyErr (List ℕ) :=
  let grid := pyRange ((total : Int) - chunk + 1) hop
  match grid.getLast? with
  | none => .error .nameErrorLoopIndex
  | some i => .ok (if i + chunk = total then grid else grid ++ [total - chunk])

/-- `num_chunks = chunks.shape[0]` (0 when the collection raised). -/
def numChunks (total chunk hop : ℕ) : ℕ :=
  match chunkStarts total chunk hop with
  | .ok starts => starts.length
  | .error _ => 0

/-- Python slice `xs[a:b]` (for `0 ≤ a ≤ b`). -/
def slice (xs : List γ) (a b : ℕ) : List γ :=
  (xs.drop a).take (b - a)

/-- Python slice assignment `buf[a : a + len(src)] = src` (the source always
writes ranges whose length equals the source length, as the torch runtime
enforces). -/
def setSlice (buf : List γ) (a : ℕ) (src : List γ) : List γ :=
  buf.take a ++ src ++ buf.drop (a + src.length)

/-- Write/read ranges computed by one iteration of the stitching loop of
`encode_audio` (lines 815-833).  `chunk` and `overlap` are in samples (they
were multiplied by `samples_per_latent = spl` on entry), `ySize` is the latent
output length `total_size // spl`, `yLen` is `y_chunk.shape[2]`, `n` is
`num_chunks`, `i` the loop index.  Result: `((t_start, t_end), (chunk_start,
chunk_end))`. -/
def stitchIdxEnc (spl chunk overlap ySize n yLen i : ℕ) : (ℕ × ℕ) × (ℕ × ℕ) :=
  let hop := chunk - overlap
  let tEnd0 := if i = n - 1 then ySize else i * hop / spl + chunk / spl
  let tStart0 := if i = n - 1 then ySize - yLen else i * hop / spl
  let ol := overlap / spl / 2
  let cStart := if 0 < i then ol else 0
  let cEnd := yLen - (if i < n - 1 then ol else 0)
  let tStart := if 0 < i then tStart0 + ol else tStart0
  let tEnd := if i < n - 1 then tEnd0 - ol else tEnd0
  ((tStart, tEnd), (cStart, cEnd))

/-- Write/read ranges computed by one iteration of the stitching loop of
`decode_audio` (lines 882-900).  `chunk` and `overlap` are in latent units,
`ySize = total_size * spl`, `yLen` is `y_chunk.shape[2]`. -/
def stitchIdxDec (spl chunk overlap ySize n yLen i : ℕ) : (ℕ × ℕ) × (ℕ × ℕ) :=
  let hop := chunk - overlap
  let tEnd0 := if i = n - 1 then ySize else i * hop * spl + chunk * spl
  let tStart0 := if i = n - 1 then ySize - yLen else i * hop * spl
  let ol := overlap / 2 * spl
  let cStart := if 0 < i then ol else 0
  let cEnd := yLen - (if i < n - 1 then ol else 0)
  let tStart := if 0 < i then tStart0 + ol else tStart0
  let tEnd := if i < n - 1 then tEnd0 - ol else tEnd0
  ((tStart, tEnd), (cStart, cEnd))

/-- One iteration of the stitching loop of `encode_audio` (lines 810-835).
The state is `(encoder call trace, y_final)`; `p = (i, x_chunk)`.  Note the
codec call `self.encode(x_chunk)` happens here, inside the loop — the trace
records its argument. -/
def stitchStepEnc (enc : List γ → List δ) (spl chunk overlap ySize n : ℕ)
    (acc : List (List γ) × List δ) (p : ℕ × List γ) : List (List γ) × List δ :=
  let yChunk := enc p.2
  let idx := stitchIdxEnc spl chunk overlap ySize n yChunk.length p.1
  (acc.1 ++ [p.2], setSlice acc.2 idx.1.1 (slice yChunk idx.2.1 idx.2.2))

/-- One iteration of the stitching loop of `decode_audio` (lines 877-902). -/
def stitchStepDec (dec : List δ → List γ) (spl chunk overlap ySize n : ℕ)
    (acc : List (List δ) × List γ) (p : ℕ × List δ) : List (List δ) × List γ :=
  let yChunk := dec p.2
  let idx := stitchIdxDec spl chunk overlap ySize n yChunk.length p.1
  (acc.1 ++ [p.2], setSlice acc.2 idx.1.1 (slice yChunk idx.2.1 idx.2.2))

/-- `AudioAutoencoder.encode_audio` (lines 766-836).  `enc` is `self.encode`
(the codec encoder pipeline), `z` the zero element used by `torch.zeros`,
`spl` the downsampling ratio, `overlap`/`chunk_size` in latent units.  The
result carries the list of inputs passed to `enc` (one per call, in order)
together with the returned tensor, so that the call structure is observable. -/
def encode_audio (enc : List γ → List δ) (z : δ) (spl : ℕ) (audio : List γ)
    (chunked : Bool) (overlap chunk_size : ℕ) :
    Except PyErr (List (List γ) × List δ) :=
  if chunked = false then
    -- default behavior: encode the entire audio in one call
    .ok ([audio], enc audio)
  else
    let chunk := chunk_size * spl   -- converting metric in latents to samples
    let ov := overlap * spl
    let hop := chunk - ov
    (chunkStarts audio.length chunk hop).map (fun starts =>
      let chunks := starts.map (fun s => slice audio s (s + chunk))
      let n := chunks.length
      let ySize := audio.length / spl
      chunks.enum.foldl (stitchStepEnc enc spl chunk ov ySize n)
        ([], List.replicate ySize z))

/-- `AudioAutoencoder.decode_audio` (lines 838-903).  `dec` is `self.decode`;
`overlap`/`chunk_size` are already in latent units. -/
def decode_audio (dec : List δ → List γ) (z : γ) (spl : ℕ) (latents : List δ)
    (chunked : Bool) (overlap chunk_size : ℕ) :
    Except PyErr (List (List δ) × List γ) :=
  if chunked = false then
    .ok ([latents], dec latents)
  else
    let hop := chunk_size - overlap
    (chunkStarts latents.length chunk_size hop).map (fun starts =>
      let chunks := starts.map (fun s => slice latents s (s + chunk_size))
      let n := chunks.length
      let ySize := latents.length * spl
      chunks.enum.foldl (stitchStepDec dec spl chunk_size overlap ySize n)
        ([], List.replicate ySize z))

/-- Number of stitching-loop iterations of chunked `encode_audio` that write
output index `j`, with the codec length contract `len(encode(x)) = len(x)/spl`
(so `y_chunk.shape[2] = chunk_size*spl/spl`).  `total` is in samples,
`chunk_lat`/`ov_lat` in latent units. -/
def encodeWriteCount (total chunk_lat ov_lat spl j : ℕ) : ℕ :=
  let chunk := chunk_lat * spl
  let ov := ov_lat * spl
  let n := numChunks total chunk (chunk - ov)
  let ySize := total / spl
  (List.range n).countP (fun i =>
    let r := (stitchIdxEnc spl chunk ov ySize n (chunk / spl) i).1
    decide (r.1 ≤ j ∧ j < r.2))

/-- Number of stitching-loop iterations of chunked `decode_audio` that write
output index `j`, with the codec length contract
`len(decode(x)) = len(x)*spl`.  All of `total`, `chunk`, `ov` in latent
units. -/
def decodeWriteCount (total chunk ov spl j : ℕ) : ℕ :=
  let n := numChunks total chunk (chunk - ov)
  let ySize := total * spl
  (List.range n).countP (fun i =>
    let r := (stitchIdxDec spl chunk ov ySize n (chunk * spl) i).1
    decide (r.1 ≤ j ∧ j < r.2))

/-- Reference form of the write-range start, in output-domain units before
scaling: used to relate `stitchIdxEnc`/`stitchIdxDec` to one shared coverage
argument. -/
def latTS (total chunk hop ol n i : ℕ) : ℕ :=
  (if i = n - 1 then total - chunk else i * hop) + (if 0 < i then ol else 0)

/-- Reference form of the write-range end (see `latTS`). -/
def latTE (total chunk hop ol n i : ℕ) : ℕ :=
  (if i = n - 1 then total else i * hop + chunk) - (if i < n - 1 then ol else 0)

/-! ### Batch-level model of `AudioAutoencoder.encode` / `.decode`
(lines 587-684).  Here a tensor is a list of batch elements; channel and time
axes are absorbed into the element type `α`.  `audio[i:i+1]` is `[audio[i]]`
and `torch.cat(xs, dim=0)` is `List.flatten`.  `torch.no_grad()` (the
`enable_grad` branches) has no effect on values, so the two branches of each
pretransform `if` collapse to the same expression. -/

/-- Pretransform collaborator: `encode`/`decode` on a batch, plus the
`enable_grad` flag (value-irrelevant, kept for fidelity). -/
structure Pretransform (α : Type) where
  enable_grad : Bool
  enc : List α → List α
  dec : List α → List α

/-- Bottleneck collaborator.  `enc` is `bottleneck.encode(latents,
return_info=True)` with the info dictionary dropped (it never feeds back into
the tensor). -/
structure Bottleneck (α : Type) where
  enc : List α → List α
  dec : List α → List α

/-- The fields of `AudioAutoencoder` that `encode`/`decode` read.  `tanh` is
the elementwise `torch.tanh` used when `soft_clip` is set. -/
structure AudioAutoencoder (α : Type) where
  pretransform : Option (Pretransform α)
  encoder : Option (List α → List α)
  decoder : List α → List α
  bottleneck : Option (Bottleneck α)
  soft_clip : Bool
  tanh : α → α

/-- `AudioAutoencoder.encode` (lines 587-639), without `skip_pretransform`
and with `return_info = False`.  When `iterate_batch` is set each stage is
applied to the size-1 batches `audio[i:i+1]` and the results concatenated;
the bottleneck is never iterated (source TODO at line 629). -/
def AudioAutoencoder.encode (m : AudioAutoencoder α) (iterate_batch : Bool)
    (audio : List α) : List α :=
  let audio :=
    match m.pretransform with
    | some p =>
        if iterate_batch then (audio.map (fun x => p.enc [x])).flatten
        else p.enc audio
    | none => audio
  let latents :=
    match m.encoder with
    | some e =>
        if iterate_batch then (audio.map (fun x => e [x])).flatten
        else e audio
    | none => audio
  match m.bottleneck with
  | some b => b.enc latents
  | none => latents

/-- `AudioAutoencoder.decode` (lines 641-684).  The `enable_grad = False`
iterated pretransform branch (line 673) ranges over `latents.shape[0]` while
indexing `decoded`; whenever the two batch sizes agree — as they do under the
batch-independence hypotheses of the claims — it computes the same value as
the `enable_grad = True` branch modelled here. -/
def AudioAutoencoder.decode (m : AudioAutoencoder α) (iterate_batch : Bool)
    (latents : List α) : List α :=
  let latents :=
    match m.bottleneck with
    | some b =>
        if iterate_batch then (latents.map (fun x => b.dec [x])).flatten
        else b.dec latents
    | none => latents
  let decoded :=
    if iterate_batch then (latents.map (fun x => m.decoder [x])).flatten
    else m.decoder latents
  let decoded :=
    match m.pretransform with
    | some p =>
        if iterate_batch then (decoded.map (fun x => p.dec [x])).flatten
        else p.dec decoded
    | none => decoded
  if m.soft_clip then decoded.map m.tanh else decoded

/-! ### Config factory `create_autoencoder_from_config` (lines 1026-1071)
with `create_encoder_from_config` (lines 958-992) and
`create_decoder_from_config` (lines 995-1023).  A config dictionary becomes a
structure of `Option` fields (`dict.get(key, None)` reads them; a missing
field behind a mandatory `cfg[key]` lookup raises `KeyError`).  Constructing
an encoder/decoder module allocates its weights; the returned trace lists the
allocations performed, in order, so that "fails before any weights are
allocated" is observable. -/

/-- The `type` tags recognised by the factories; `unknownTag` stands for any
other string. -/
inductive CodecTag where
  | oobleck
  | seanet
  | dac
  | local_attn
  | unknownTag
  deriving DecidableEq

/-- `ae_config["encoder"]` / `ae_config["decoder"]`: the `type` tag and (for
the decoder) the optional `soft_clip` flag read at line 1057.  The `config`
payload passed to the module constructor is out of scope. -/
structure CodecConfig where
  type : Option CodecTag
  soft_clip : Option Bool
  deriving DecidableEq

/-- `config["model"]`. -/
structure ModelConfig where
  encoder : Option CodecConfig
  decoder : Option CodecConfig
  latent_dim : Option ℕ
  downsampling_ratio : Option ℕ
  io_channels : Option ℕ
  in_channels : Option ℕ
  out_channels : Option ℕ
  deriving DecidableEq

/-- The top-level config dictionary. -/
structure AEConfig where
  model : Option ModelConfig
  sample_rate : Option ℕ
  deriving DecidableEq

/-- The assembled `AudioAutoencoder` constructor arguments (weights
abstracted to their type tags). -/
structure AEShell where
  encoder : CodecTag
  decoder : CodecTag
  io_channels : ℕ
  latent_dim : ℕ
  downsampling_ratio : ℕ
  sample_rate : ℕ
  in_channels : Option ℕ
  out_channels : Option ℕ
  soft_clip : Bool
  deriving DecidableEq

/-- Weight allocations, in order of occurrence. -/
inductive Alloc where
  | encoderWeights
  | decoderWeights
  deriving DecidableEq

/-- `create_encoder_from_config`: asserts the tag is present
(`"Encoder type must be specified"`), then constructs the module — allocating
its weights — or raises `ValueError(f"Unknown encoder type {...}")`. -/
def create_encoder_from_config (cfg : CodecConfig) : Except PyErr CodecTag :=
  match cfg.type with
  | none => .error (.assertionError .encoder_type)
  | some t =>
    match t with
    | .unknownTag => .error .valueErrorUnknownEncoder
    | t => .ok t

/-- `create_decoder_from_config` (mirror of the encoder factory). -/
def create_decoder_from_config (cfg : CodecConfig) : Except PyErr CodecTag :=
  match cfg.type with
  | none => .error (.assertionError .decoder_type)
  | some t =>
    match t with
    | .unknownTag => .error .valueErrorUnknownDecoder
    | t => .ok t

/-- `create_autoencoder_from_config` (lines 1026-1071), with an allocation
trace.  The source constructs the encoder (line 1030) and the decoder
(line 1031) before any of the `assert ... is not None` checks on
`latent_dim`, `downsampling_ratio`, `io_channels` and `sample_rate`
(lines 1035-1044). -/
def create_autoencoder_from_config (config : AEConfig) :
    List Alloc × Except PyErr AEShell :=
  match config.model with
  | none => ([], .error .keyErrorModel)
  | some ae =>
  match ae.encoder with
  | none => ([], .error .keyErrorEncoder)
  | some encCfg =>
  match create_encoder_from_config encCfg with
  | .error e => ([], .error e)
  | .ok enc =>
  match ae.decoder with
  | none => ([.encoderWeights], .error .keyErrorDecoder)
  | some decCfg =>
  match create_decoder_from_config decCfg with
  | .error e => ([.encoderWeights], .error e)
  | .ok dec =>
  let allocs := [Alloc.encoderWeights, Alloc.decoderWeights]
  match ae.latent_dim with
  | none => (allocs, .error (.assertionError .latent_dim))
  | some latent_dim =>
  match ae.downsampling_ratio with
  | none => (allocs, .error (.assertionError .downsampling_ratio))
  | some dr =>
  match ae.io_channels with
  | none => (allocs, .error (.assertionError .io_channels))
  | some io =>
  match config.sample_rate with
  | none => (allocs, .error (.assertionError .sample_rate))
  | some sr =>
  (allocs, .ok { encoder := enc, decoder := dec, io_channels := io,
                 latent_dim := latent_dim, downsampling_ratio := dr,
                 sample_rate := sr, in_channels := ae.in_channels,
                 out_channels := ae.out_channels,
                 soft_clip := decCfg.soft_clip.getD false })

/-! ### `DiffusionAutoencoder.decode` (lines 926-952).  The method overrides
`AudioAutoencoder.decode`; at line 934, under `if self.decoder is not None`,
it executes `latents = self.decode(latents)` — a recursive call to itself
with an unchanged argument, not a call to `self.decoder`.  The recursion is
modelled with explicit fuel standing for the Python call stack: `none` means
the stack is exhausted without producing a value (Python: `RecursionError`). -/

/-- The fields of `DiffusionAutoencoder` that `decode` reads; `interpolate`
is `F.interpolate(·, size, mode="nearest")`, `sampleDiffusion` bundles the
noise draw and the diffusion `sample` call. -/
structure DiffusionAutoencoder (α : Type) where
  downsampling_ratio : ℕ
  bottleneck : Option (List α → List α)
  decoder : Option (List α → List α)
  interpolate : List α → ℕ → List α
  sampleDiffusion : List α → List α
  pretransform : Option (List α → List α)

/-- `DiffusionAutoencoder.decode` with fuel (see section comment). -/
def DiffusionAutoencoder.decode (m : DiffusionAutoencoder α) :
    ℕ → List α → Option (List α)
  | 0, _ => none
  | fuel + 1, latents =>
    let upsampled_length := latents.length * m.downsampling_ratio
    let latents1 :=
      match m.bottleneck with
      | some b => b latents
      | none => latents
    let recursed :=
      match m.decoder with
      | some _ => DiffusionAutoencoder.decode m fuel latents1
      | none => some latents1
    match recursed with
    | none => none
    | some latents2 =>
      let latents3 :=
        if latents2.length != upsampled_length then
          m.interpolate latents2 upsampled_length
        else latents2
      let decoded := m.sampleDiffusion latents3
      some (match m.pretransform with
            | some p => p decoded
            | none => decoded)

/-! ### Concrete fixtures used by the witness theorems. -/

/-- A concrete `AudioAutoencoder` over `ℕ` whose collaborators all process
batch elements independently. -/
def sampleAE : AudioAutoencoder ℕ where
  pretransform := some { enable_grad := true,
                         enc := fun l => l.map (fun v => v + 1),
                         dec := fun l => l.map (fun v => v * 2) }
  encoder := some (fun l => l.map (fun v => v + 3))
  decoder := fun l => l.map (fun v => v + 5)
  bottleneck := some { enc := fun l => l.map (fun v => v * 3),
                       dec := fun l => l.map (fun v => v + 7) }
  soft_clip := true
  tanh := fun v => v + 9

/-- A concrete `DiffusionAutoencoder` over `ℕ` with a decoder module
present. -/
def sampleDiffAE : DiffusionAutoencoder ℕ where
  downsampling_ratio := 2
  bottleneck := some (fun l => l)
  decoder := some (fun l => l)
  interpolate := fun l _ => l
  sampleDiffusion := fun l => l
  pretransform := none

/-- A concrete codec encoder for the single-chunk witness: maps a length-6
signal to a length-3 latent (ratio 2). -/
def encW (l : List ℕ) : List ℕ := l.take 3

/-- A concrete codec decoder for the single-chunk witness: maps a length-3
latent to a length-6 signal (ratio 2). -/
def decW (l : List ℕ) : List ℕ := l ++ l

/-- A config whose encoder and decoder are well-formed but whose
`latent_dim` is missing. -/
def cfgMissingLatentDim : AEConfig where
  model := some { encoder := some { type := some .oobleck, soft_clip := none },
                  decoder := some { type := some .oobleck, soft_clip := none },
                  latent_dim := none,
                  downsampling_ratio := some 2048,
                  io_channels := some 2,
                  in_channels := none,
                  out_channels := none }
  sample_rate := some 44100

/-! ## Helper lemmas -/

theorem pyRangeLen_grid (total chunk hop : ℕ) (hh : 0 < hop) (hct : chunk ≤ total) :
    pyRangeLen ((total : Int) - chunk + 1) hop = (total - chunk) / hop + 1 := by
  unfold pyRangeLen
  have h1 : ((total : Int) - chunk + 1).toNat = total - chunk + 1 := by omega
  have h2 : total - chunk + 1 + hop - 1 = (total - chunk) + hop := by omega
  rw [h1, h2, Nat.add_div_right _ hh]

theorem pyRangeLen_short (total chunk hop : ℕ) (hct : total < chunk) :
    pyRangeLen ((total : Int) - chunk + 1) hop = 0 := by
  unfold pyRangeLen
  have h1 : ((total : Int) - chunk + 1).toNat = 0 := by omega
  rw [h1]
  rcases Nat.eq_zero_or_pos hop with h | h
  · simp [h]
  · exact Nat.div_eq_of_lt (by omega)

theorem chunkStarts_ok (total chunk hop : ℕ) (hh : 0 < hop) (hct : chunk ≤ total) :
    chunkStarts total chunk hop =
      .ok ((List.range ((total - chunk) / hop + 1)).map (fun k => k * hop) ++
        (if (total - chunk) % hop = 0 then [] else [total - chunk])) := by
  have hgrid : pyRange ((total : Int) - chunk + 1) hop
      = (List.range ((total - chunk) / hop + 1)).map (fun k => k * hop) := by
    unfold pyRange
    rw [pyRangeLen_grid total chunk hop hh hct]
  have hlast : ((List.range ((total - chunk) / hop + 1)).map
      (fun k => k * hop)).getLast? = some ((total - chunk) / hop * hop) := by
    rw [List.range_succ, List.map_append]
    exact List.getLast?_concat _
  have hdm := Nat.div_add_mod (total - chunk) hop
  simp only [chunkStarts, hgrid, hlast]
  by_cases hr : (total - chunk) % hop = 0
  · have hq : (total - chunk) / hop * hop + chunk = total := by
      rw [mul_comm]; omega
    simp [hq, hr]
  · have hq : ¬ ((total - chunk) / hop * hop + chunk = total) := by
      rw [mul_comm]; omega
    simp [hq, hr]

theorem chunkStarts_short (total chunk hop : ℕ) (hct : total < chunk) :
    chunkStarts total chunk hop = .error .nameErrorLoopIndex := by
  have hgrid : pyRange ((total : Int) - chunk + 1) hop = [] := by
    unfold pyRange
    rw [pyRangeLen_short total chunk hop hct]
    rfl
  simp [chunkStarts, hgrid]

theorem numChunks_eq (total chunk hop : ℕ) (hh : 0 < hop) (hct : chunk ≤ total) :
    numChunks total chunk hop =
      (total - chunk) / hop + 1 +
        (if (total - chunk) % hop = 0 then 0 else 1) := by
  unfold numChunks
  rw [chunkStarts_ok total chunk hop hh hct]
  by_cases hr : (total - chunk) % hop = 0 <;> simp [hr]

theorem stitch_key (total chunk overlap ol n hop q r : ℕ)
    (hhop : hop = chunk - overlap) (hoc : overlap < chunk)
    (hct : chunk ≤ total) (hol : 2 * ol ≤ overlap)
    (hdm : hop * q + r = total - chunk) (hrlt : r < hop)
    (hnum : n = q + 1 + (if r = 0 then 0 else 1)) (hn2 : 2 ≤ n) :
    total - chunk + ol ≤ (n - 2) * hop + (chunk - ol) := by
  by_cases hr0 : r = 0
  · rw [if_pos hr0] at hnum
    have hq1 : 1 ≤ q := by omega
    have e1 : n - 2 = q - 1 := by omega
    have e2 : (q - 1) * hop = hop * q - hop := by
      rw [Nat.sub_mul, one_mul, mul_comm q hop]
    have e3 : hop ≤ hop * q := Nat.le_mul_of_pos_right hop hq1
    rw [e1, e2]
    omega
  · rw [if_neg hr0] at hnum
    have e1 : n - 2 = q := by omega
    have e2 : q * hop = hop * q := mul_comm _ _
    rw [e1, e2]
    omega

theorem stitch_cover (total chunk overlap ol j n hop q r : ℕ)
    (hhop : hop = chunk - overlap) (hoc : overlap < chunk)
    (hct : chunk ≤ total) (hol : 2 * ol ≤ overlap) (hj : j < total)
    (hdm : hop * q + r = total - chunk) (hrlt : r < hop)
    (hnum : n = q + 1 + (if r = 0 then 0 else 1)) :
    ∃ i, i < n ∧ latTS total chunk hop ol n i ≤ j ∧
      j < latTE total chunk hop ol n i := by
  have hh : 0 < hop := by omega
  have hn1 : 1 ≤ n := by
    by_cases hr0 : r = 0
    · rw [if_pos hr0] at hnum; omega
    · rw [if_neg hr0] at hnum; omega
  by_cases hn2 : 2 ≤ n
  · by_cases hlast : total - chunk + ol ≤ j
    · refine ⟨n - 1, by omega, ?_, ?_⟩
      · have h1 : (0:ℕ) < n - 1 := by omega
        simp only [latTS, if_pos rfl, if_pos h1]
        exact hlast
      · have h1 : ¬ (n - 1 < n - 1) := by omega
        have e : latTE total chunk hop ol n (n - 1) = total := by
          simp [latTE, h1]
        rw [e]
        omega
    · push_neg at hlast
      by_cases h0 : j < chunk - ol
      · have h1 : ¬ ((0:ℕ) = n - 1) := by omega
        have h2 : (0:ℕ) < n - 1 := by omega
        refine ⟨0, by omega, ?_, ?_⟩
        · simp [latTS, h1]
        · simp only [latTE, if_neg h1, if_pos h2]
          omega
      · push_neg at h0
        have hkey := stitch_key total chunk overlap ol n hop q r hhop hoc hct
          hol hdm hrlt hnum hn2
        obtain ⟨k, s, hdm2, hslt⟩ :
            ∃ k s, hop * k + s = j - (chunk - ol) ∧ s < hop :=
          ⟨_, _, Nat.div_add_mod _ _, Nat.mod_lt _ hh⟩
        have hd2 : j - (chunk - ol) < (n - 2) * hop := by omega
        have hkn : k < n - 2 := by
          by_contra hcon
          push_neg at hcon
          have hle : (n - 2) * hop ≤ hop * k := by
            rw [mul_comm (n - 2) hop]
            exact Nat.mul_le_mul_left hop hcon
          omega
        have e1 : (k + 1) * hop = hop * k + hop := by ring
        have h1 : ¬ (k + 1 = n - 1) := by omega
        have h2 : (0:ℕ) < k + 1 := by omega
        have h3 : k + 1 < n - 1 := by omega
        refine ⟨k + 1, by omega, ?_, ?_⟩
        · simp only [latTS, if_neg h1, if_pos h2]
          omega
        · simp only [latTE, if_neg h1, if_pos h3]
          omega
  · have hn1e : n = 1 := by omega
    have htc : total = chunk := by
      by_cases hr0 : r = 0
      · rw [if_pos hr0] at hnum
        have hq0 : q = 0 := by omega
        rw [hq0, Nat.mul_zero, hr0] at hdm
        omega
      · rw [if_neg hr0] at hnum
        omega
    have h1 : (0:ℕ) = n - 1 := by omega
    have h2 : ¬ ((0:ℕ) < n - 1) := by omega
    refine ⟨0, by omega, ?_, ?_⟩
    · simp only [latTS, if_pos h1, if_neg (by omega : ¬ (0:ℕ) < 0)]
      omega
    · simp only [latTE, if_pos h1, if_neg h2]
      omega

theorem stitch_te_le (total chunk overlap ol i n hop q r : ℕ)
    (hhop : hop = chunk - overlap) (hoc : overlap < chunk)
    (hct : chunk ≤ total)
    (hdm : hop * q + r = total - chunk) (hrlt : r < hop)
    (hnum : n = q + 1 + (if r = 0 then 0 else 1))
    (hi : i < n) :
    latTE total chunk hop ol n i ≤ total := by
  have hh : 0 < hop := by omega
  by_cases hlast : i = n - 1
  · have h1 : ¬ (n - 1 < n - 1) := by omega
    have e : latTE total chunk hop ol n (n - 1) = total := by
      simp [latTE, h1]
    rw [hlast, e]
  · have hint : i < n - 1 := by omega
    simp only [latTE, if_neg hlast, if_pos hint]
    have hiq : i ≤ q := by
      by_cases hr0 : r = 0
      · rw [if_pos hr0] at hnum; omega
      · rw [if_neg hr0] at hnum; omega
    have h2 : i * hop ≤ q * hop := Nat.mul_le_mul_right hop hiq
    have h3 : q * hop = hop * q := mul_comm _ _
    omega

theorem stitchIdxEnc_lat (spl chunk ov total n i : ℕ) (hspl : 0 < spl) :
    (stitchIdxEnc spl (chunk * spl) (ov * spl) total n chunk i).1
      = (latTS total chunk (chunk - ov) (ov / 2) n i,
         latTE total chunk (chunk - ov) (ov / 2) n i) := by
  have hhop : chunk * spl - ov * spl = (chunk - ov) * spl :=
    (Nat.sub_mul chunk ov spl).symm
  have hih : ∀ m : ℕ, m * ((chunk - ov) * spl) / spl = m * (chunk - ov) := by
    intro m
    rw [← mul_assoc, Nat.mul_div_cancel _ hspl]
  have hc : chunk * spl / spl = chunk := Nat.mul_div_cancel _ hspl
  have hov : ov * spl / spl = ov := Nat.mul_div_cancel _ hspl
  simp only [stitchIdxEnc, latTS, latTE, hhop, hih, hc, hov]
  refine Prod.ext ?_ ?_ <;> split_ifs <;> omega

theorem stitchIdxDec_lat (spl chunk ov total n i : ℕ) :
    (stitchIdxDec spl chunk ov (total * spl) n (chunk * spl) i).1
      = (latTS total chunk (chunk - ov) (ov / 2) n i * spl,
         latTE total chunk (chunk - ov) (ov / 2) n i * spl) := by
  simp only [stitchIdxDec, latTS, latTE]
  refine Prod.ext ?_ ?_ <;> split_ifs <;>
    simp [Nat.add_mul, Nat.sub_mul]

theorem numChunks_scale (total chunk ov spl : ℕ) (hspl : 0 < spl)
    (hov : ov < chunk) (hct : chunk ≤ total) :
    numChunks (total * spl) (chunk * spl) (chunk * spl - ov * spl)
      = numChunks total chunk (chunk - ov) := by
  have hhop : chunk * spl - ov * spl = (chunk - ov) * spl :=
    (Nat.sub_mul chunk ov spl).symm
  have hh : 0 < chunk - ov := by omega
  have hhs : 0 < (chunk - ov) * spl := Nat.mul_pos hh hspl
  have hcts : chunk * spl ≤ total * spl := Nat.mul_le_mul_right spl hct
  rw [hhop, numChunks_eq (total * spl) (chunk * spl) ((chunk - ov) * spl) hhs hcts,
      numChunks_eq total chunk (chunk - ov) hh hct]
  have hsub : total * spl - chunk * spl = (total - chunk) * spl :=
    (Nat.sub_mul total chunk spl).symm
  have hdiv : (total - chunk) * spl / ((chunk - ov) * spl)
      = (total - chunk) / (chunk - ov) := Nat.mul_div_mul_right _ _ hspl
  have hmod : (total - chunk) * spl % ((chunk - ov) * spl)
      = (total - chunk) % (chunk - ov) * spl :=
    Nat.mul_mod_mul_right spl (total - chunk) (chunk - ov)
  rw [hsub, hdiv, hmod]
  by_cases hr : (total - chunk) % (chunk - ov) = 0
  · rw [if_pos (by rw [hr, zero_mul]), if_pos hr]
  · rw [if_neg (fun hcon => hr (by
      rcases Nat.mul_eq_zero.1 hcon with h | h
      · exact h
      · omega)), if_neg hr]

theorem stitchIdxEnc_lat_ts (spl chunk ov total n i : ℕ) (hspl : 0 < spl) :
    (stitchIdxEnc spl (chunk * spl) (ov * spl) total n chunk i).1.1
      = latTS total chunk (chunk - ov) (ov / 2) n i := by
  rw [stitchIdxEnc_lat spl chunk ov total n i hspl]

theorem stitchIdxEnc_lat_te (spl chunk ov total n i : ℕ) (hspl : 0 < spl) :
    (stitchIdxEnc spl (chunk * spl) (ov * spl) total n chunk i).1.2
      = latTE total chunk (chunk - ov) (ov / 2) n i := by
  rw [stitchIdxEnc_lat spl chunk ov total n i hspl]

theorem stitchIdxDec_lat_ts (spl chunk ov total n i : ℕ) :
    (stitchIdxDec spl chunk ov (total * spl) n (chunk * spl) i).1.1
      = latTS total chunk (chunk - ov) (ov / 2) n i * spl := by
  rw [stitchIdxDec_lat spl chunk ov total n i]

theorem stitchIdxDec_lat_te (spl chunk ov total n i : ℕ) :
    (stitchIdxDec spl chunk ov (total * spl) n (chunk * spl) i).1.2
      = latTE total chunk (chunk - ov) (ov / 2) n i * spl := by
  rw [stitchIdxDec_lat spl chunk ov total n i]

/-- C1 counterexample input: `decode_audio(chunked=True)` with
`total_length = 100` latent frames, `chunk_size = 32`, `overlap = 8`
(`0 ≤ 8 < 32 ≤ 100`), downsampling ratio `2`.  The window grid is
`[0, 24, 48]` plus the right-aligned final window at `68`; the final
window's trimmed paste starts at sample `(68 + 4) * 2 = 144` while the
previous chunk's paste ends at sample `152`, so samples `144..151` are
written twice — refuting "no index written more than once". -/
theorem decode_double_write_example :
    decodeWriteCount 100 32 8 2 144 = 2 := by decide

/-- C1 (amended): for every `0 ≤ overlap < chunk_size ≤ total_length` the
trimmed pasted ranges of the stitching phase of chunked `decode_audio` (and,
for inputs pre-padded to a multiple of the ratio, `encode_audio`) cover the
output buffer `[0, output_length)` with no gaps — every index is written at
least once and no write falls outside the buffer — but an index may be
written more than once (see `decode_double_write_example`); the last write
wins. -/
theorem chunk_stitch_writes_cover_output (total chunk ov spl : ℕ)
    (hspl : 0 < spl) (hov : ov < chunk) (hct : chunk ≤ total) :
    (∀ j, j < total * spl → 1 ≤ decodeWriteCount total chunk ov spl j) ∧
    (∀ j, total * spl ≤ j → decodeWriteCount total chunk ov spl j = 0) ∧
    (∀ j, j < total → 1 ≤ encodeWriteCount (total * spl) chunk ov spl j) ∧
    (∀ j, total ≤ j → encodeWriteCount (total * spl) chunk ov spl j = 0) := by
  have hh : 0 < chunk - ov := by omega
  have hnum := numChunks_eq total chunk (chunk - ov) hh hct
  have hdm := Nat.div_add_mod (total - chunk) (chunk - ov)
  have hrlt : (total - chunk) % (chunk - ov) < chunk - ov := Nat.mod_lt _ hh
  have hol : 2 * (ov / 2) ≤ ov := by omega
  have hmul : ∀ a : ℕ, a * spl / spl = a := fun a => Nat.mul_div_cancel a hspl
  refine ⟨?_, ?_, ?_, ?_⟩
  · intro j hj
    obtain ⟨i, hin, hts, hte⟩ := stitch_cover total chunk ov (ov / 2) (j / spl)
      (numChunks total chunk (chunk - ov)) (chunk - ov)
      ((total - chunk) / (chunk - ov)) ((total - chunk) % (chunk - ov))
      rfl hov hct hol ((Nat.div_lt_iff_lt_mul hspl).2 hj) hdm hrlt hnum
    have hQ := Nat.div_add_mod j spl
    have hQlt : j % spl < spl := Nat.mod_lt _ hspl
    have h1 : latTS total chunk (chunk - ov) (ov / 2)
        (numChunks total chunk (chunk - ov)) i * spl ≤ j / spl * spl :=
      Nat.mul_le_mul_right spl hts
    have h2 : (j / spl + 1) * spl ≤ latTE total chunk (chunk - ov) (ov / 2)
        (numChunks total chunk (chunk - ov)) i * spl :=
      Nat.mul_le_mul_right spl hte
    have h3 : j / spl * spl = spl * (j / spl) := mul_comm _ _
    have h4 : (j / spl + 1) * spl = spl * (j / spl) + spl := by ring
    simp only [decodeWriteCount]
    show 0 < _
    refine List.countP_pos_iff.2 ⟨i, List.mem_range.2 hin, ?_⟩
    rw [decide_eq_true_eq, stitchIdxDec_lat_ts, stitchIdxDec_lat_te]
    exact ⟨by omega, by omega⟩
  · intro j hj
    simp only [decodeWriteCount]
    apply List.countP_eq_zero.2
    intro i hi
    rw [List.mem_range] at hi
    rw [decide_eq_true_eq, stitchIdxDec_lat_ts, stitchIdxDec_lat_te]
    intro hcon
    have hle := stitch_te_le total chunk ov (ov / 2) i
      (numChunks total chunk (chunk - ov)) (chunk - ov)
      ((total - chunk) / (chunk - ov)) ((total - chunk) % (chunk - ov))
      rfl hov hct hdm hrlt hnum hi
    have h5 : latTE total chunk (chunk - ov) (ov / 2)
        (numChunks total chunk (chunk - ov)) i * spl ≤ total * spl :=
      Nat.mul_le_mul_right spl hle
    omega
  · intro j hj
    obtain ⟨i, hin, hts, hte⟩ := stitch_cover total chunk ov (ov / 2) j
      (numChunks total chunk (chunk - ov)) (chunk - ov)
      ((total - chunk) / (chunk - ov)) ((total - chunk) % (chunk - ov))
      rfl hov hct hol hj hdm hrlt hnum
    simp only [encodeWriteCount, hmul,
      numChunks_scale total chunk ov spl hspl hov hct]
    show 0 < _
    refine List.countP_pos_iff.2 ⟨i, List.mem_range.2 hin, ?_⟩
    rw [decide_eq_true_eq,
      stitchIdxEnc_lat_ts spl chunk ov total (numChunks total chunk (chunk - ov)) i hspl,
      stitchIdxEnc_lat_te spl chunk ov total (numChunks total chunk (chunk - ov)) i hspl]
    exact ⟨hts, hte⟩
  · intro j hj
    simp only [encodeWriteCount, hmul,
      numChunks_scale total chunk ov spl hspl hov hct]
    apply List.countP_eq_zero.2
    intro i hi
    rw [List.mem_range] at hi
    rw [decide_eq_true_eq,
      stitchIdxEnc_lat_ts spl chunk ov total (numChunks total chunk (chunk - ov)) i hspl,
      stitchIdxEnc_lat_te spl chunk ov total (numChunks total chunk (chunk - ov)) i hspl]
    intro hcon
    have hle := stitch_te_le total chunk ov (ov / 2) i
      (numChunks total chunk (chunk - ov)) (chunk - ov)
      ((total - chunk) / (chunk - ov)) ((total - chunk) % (chunk - ov))
      rfl hov hct hdm hrlt hnum hi
    omega

/-- Witness for `chunk_stitch_writes_cover_output` at
`total = 4, chunk = 2, ov = 1, spl = 2`. -/
theorem chunk_stitch_writes_cover_output_witness :
    (0 < 2 ∧ 1 < 2 ∧ 2 ≤ 4) ∧
    ((∀ j, j < 4 * 2 → 1 ≤ decodeWriteCount 4 2 1 2 j) ∧
     (∀ j, 4 * 2 ≤ j → decodeWriteCount 4 2 1 2 j = 0) ∧
     (∀ j, j < 4 → 1 ≤ encodeWriteCount (4 * 2) 2 1 2 j) ∧
     (∀ j, 4 ≤ j → encodeWriteCount (4 * 2) 2 1 2 j = 0)) :=
  ⟨by omega,
   chunk_stitch_writes_cover_output 4 2 1 2 (by omega) (by omega) (by omega)⟩

/-- C3 counterexample: at `total_length = 1000` samples, `R = 10`,
`chunk_size = 32` latent frames (= 320 samples), `overlap = 8` (= 80
samples, hop 240), the window loop produces sample starts `[0, 240, 480]`
only — a window at latent-start 72 (sample 720) would need
`720 + 320 ≤ 1000`, which fails — and the appended right-aligned window
starts at sample 680 (latent 68).  There are exactly 4 chunks, not the 5
(`[0,24,48,72]` + 68) the claim states. -/
theorem scenario_four_chunks_example :
    numChunks 1000 320 240 = 4 ∧
    chunkStarts 1000 320 240 = .ok [0, 240, 480, 680] := by decide

/-- C3 (amended): for `total_length = 1000` samples, `R = 10`,
`chunk_size = 32`, `overlap = 8`, chunked `encode_audio` generates windows
at latent-starts `[0, 24, 48]` (sample starts `[0, 240, 480]`) followed by
one final right-aligned window at latent-start `68`, i.e. exactly 4 chunks,
and the 4 trimmed pastes produce a contiguous `[0, 100)` latent buffer
(with latent indices `[72, 76)` written by both of the last two pastes,
the final paste winning). -/
theorem scenario_1000_R10_windows :
    chunkStarts 1000 320 240 = .ok [0, 240, 480, 680] ∧
    (∀ j, j < 100 → 1 ≤ encodeWriteCount 1000 32 8 10 j) ∧
    encodeWriteCount 1000 32 8 10 72 = 2 := by decide

/-- C5: for every `0 ≤ overlap < chunk_size ≤ total_length` the window
collection of chunked `encode_audio`/`decode_audio` (`chunkStarts`, the
shared generator, with the hop `chunk_size - overlap`) succeeds and its last
window starts at `total_length - chunk_size`, hence ends exactly at
`total_length` — when the hop grid stops short this is the appended
right-aligned window, otherwise it is the last grid window itself. -/
theorem last_window_ends_at_total (total chunk overlap : ℕ)
    (hov : overlap < chunk) (hct : chunk ≤ total) :
    ∃ starts, chunkStarts total chunk (chunk - overlap) = .ok starts ∧
      starts.getLast? = some (total - chunk) ∧ (total - chunk) + chunk = total := by
  have hh : 0 < chunk - overlap := by omega
  rw [chunkStarts_ok total chunk (chunk - overlap) hh hct]
  refine ⟨_, rfl, ?_, by omega⟩
  by_cases hr : (total - chunk) % (chunk - overlap) = 0
  · rw [if_pos hr, List.append_nil, List.range_succ, List.map_append,
      List.map_singleton, List.getLast?_concat]
    have hdm := Nat.div_add_mod (total - chunk) (chunk - overlap)
    congr 1
    rw [mul_comm]
    omega
  · rw [if_neg hr]
    exact List.getLast?_concat _

/-- Witness for `last_window_ends_at_total` at `total = 10`, `chunk = 4`,
`overlap = 1`. -/
theorem last_window_ends_at_total_witness :
    ((1:ℕ) < 4 ∧ (4:ℕ) ≤ 10) ∧
    (∃ starts, chunkStarts 10 4 (4 - 1) = .ok starts ∧
      starts.getLast? = some (10 - 4) ∧ (10 - 4) + 4 = 10) :=
  ⟨by omega, last_window_ends_at_total 10 4 1 (by omega) (by omega)⟩

/-- C8 counterexample: a 1-frame latent input with `chunk_size = 32`
(`1 < 32`) makes chunked `decode_audio` raise `NameError` — the `if i +
chunk_size != total_size` test reads the loop variable of a loop whose body
never ran — which is not an assertion-style error naming the violated
precondition (the second conjunct: a `NameError` is not an
`AssertionError`). -/
theorem short_input_name_error_example :
    decode_audio (fun l => l) (0 : ℕ) 1 [5] true 8 32
        = .error .nameErrorLoopIndex ∧
    (∀ f, PyErr.nameErrorLoopIndex ≠ PyErr.assertionError f) :=
  ⟨by decide, fun f h => nomatch h⟩

/-- C8 (amended): for valid chunking parameters (`overlap < chunk_size`,
where the hop is positive — with `overlap ≥ chunk_size` the source raises a
`ValueError` from `range`'s zero step or iterates a negative-step range
instead), whenever the input is shorter than the (domain-converted) chunk
size, chunked `encode_audio` and `decode_audio` do fail fast, but with a
`NameError` from reading the undefined loop variable `i`, not with an
assertion-style error identifying the violated precondition. -/
theorem chunked_short_input_raises_name_error (enc : List γ → List δ)
    (dec : List δ → List γ) (z1 : δ) (z2 : γ) (spl ov chunk : ℕ)
    (audio : List γ) (latents : List δ) (hov : ov < chunk)
    (henc : audio.length < chunk * spl) (hdec : latents.length < chunk) :
    encode_audio enc z1 spl audio true ov chunk
        = .error .nameErrorLoopIndex ∧
    decode_audio dec z2 spl latents true ov chunk
        = .error .nameErrorLoopIndex := by
  constructor
  · simp [encode_audio, chunkStarts_short _ _ _ henc, Except.map]
  · simp [decode_audio, chunkStarts_short _ _ _ hdec, Except.map]

/-- Witness for `chunked_short_input_raises_name_error` on a length-1
input with `chunk_size = 32`, `spl = 1`. -/
theorem chunked_short_input_raises_name_error_witness :
    ((8:ℕ) < 32 ∧ (1:ℕ) < 32 * 1 ∧ (1:ℕ) < 32) ∧
    (encode_audio (fun l => l) (0:ℕ) 1 [7] true 8 32
        = .error .nameErrorLoopIndex ∧
     decode_audio (fun l => l) (0:ℕ) 1 [7] true 8 32
        = .error .nameErrorLoopIndex) :=
  ⟨by omega, chunked_short_input_raises_name_error _ _ 0 0 1 8 32 [7] [7]
    (by decide) (by decide) (by decide)⟩

theorem stitchStepEnc_fold_fst (enc : List γ → List δ)
    (spl chunk overlap ySize n : ℕ) (l : List (ℕ × List γ))
    (a0 : List (List γ)) (s0 : List δ) :
    (l.foldl (stitchStepEnc enc spl chunk overlap ySize n) (a0, s0)).1
      = a0 ++ l.map Prod.snd := by
  induction l generalizing a0 s0 with
  | nil => simp
  | cons h t ih =>
    rw [List.foldl_cons,
      show stitchStepEnc enc spl chunk overlap ySize n (a0, s0) h
        = (a0 ++ [h.2],
           (stitchStepEnc enc spl chunk overlap ySize n (a0, s0) h).2) from rfl,
      ih]
    simp

theorem stitchStepDec_fold_fst (dec : List δ → List γ)
    (spl chunk overlap ySize n : ℕ) (l : List (ℕ × List δ))
    (a0 : List (List δ)) (s0 : List γ) :
    (l.foldl (stitchStepDec dec spl chunk overlap ySize n) (a0, s0)).1
      = a0 ++ l.map Prod.snd := by
  induction l generalizing a0 s0 with
  | nil => simp
  | cons h t ih =>
    rw [List.foldl_cons,
      show stitchStepDec dec spl chunk overlap ySize n (a0, s0) h
        = (a0 ++ [h.2],
           (stitchStepDec dec spl chunk overlap ySize n (a0, s0) h).2) from rfl,
      ih]
    simp

/-- C2 counterexample: chunked `encode_audio` on a 4-sample input with
`chunk_size = 2`, `overlap = 0`, ratio 1 produces 2 windows and invokes the
codec encoder twice — one call per window, inside the stitching loop — not
in "exactly one batched forward call covering all windows". -/
theorem encode_two_codec_calls_example :
    (encode_audio (fun l => l) (0 : ℕ) 1 [0, 1, 2, 3] true 0 2).map
        (fun p => p.1.length) = .ok 2 := by decide

/-- C2 (amended): in chunked mode the windows are stacked along a new
leading dimension, but the codec encoder is then invoked once per window
inside the stitching loop — the trace of encoder-call inputs equals the
window list itself (`num_chunks` calls, each on a single window); apart from
these per-window codec calls the loop only copies slices.  `decode_audio`
has the same structure with the decoder. -/
theorem chunked_codec_call_per_window (enc : List γ → List δ)
    (dec : List δ → List γ) (z1 : δ) (z2 : γ) (spl : ℕ)
    (audio : List γ) (latents : List δ) (ov chunk : ℕ) :
    (encode_audio enc z1 spl audio true ov chunk).map Prod.fst
      = (chunkStarts audio.length (chunk * spl) (chunk * spl - ov * spl)).map
          (fun starts => starts.map (fun s => slice audio s (s + chunk * spl))) ∧
    (decode_audio dec z2 spl latents true ov chunk).map Prod.fst
      = (chunkStarts latents.length chunk (chunk - ov)).map
          (fun starts => starts.map (fun s => slice latents s (s + chunk))) := by
  constructor
  · simp only [encode_audio]
    rcases h : chunkStarts audio.length (chunk * spl) (chunk * spl - ov * spl)
      with e | starts
    · rfl
    · simp [Except.map, stitchStepEnc_fold_fst, List.enum_map_snd]
  · simp only [decode_audio]
    rcases h : chunkStarts latents.length chunk (chunk - ov) with e | starts
    · rfl
    · simp [Except.map, stitchStepDec_fold_fst, List.enum_map_snd]

theorem chunkStarts_single (total hop : ℕ) (hh : 0 < hop) :
    chunkStarts total total hop = .ok [0] := by
  rw [chunkStarts_ok total total hop hh (le_refl total)]
  simp [Nat.sub_self, List.range_succ]

/-- C10: when the input is exactly one chunk long (`total samples =
chunk_size * R` for `encode_audio`; `total latent frames = chunk_size` for
`decode_audio`), the chunked path produces exactly one window — the whole
input — applies no edge trimming, and returns precisely the non-chunked
result, given the codec length contract (`enc` maps length `T` to `T / R`,
`dec` maps length `T` to `T * R`). -/
theorem single_chunk_matches_unchunked (enc : List γ → List δ)
    (dec : List δ → List γ) (z1 : δ) (z2 : γ) (spl chunk ov : ℕ)
    (audio : List γ) (latents : List δ) (hspl : 0 < spl) (hov : ov < chunk)
    (hal : audio.length = chunk * spl) (henc : (enc audio).length = chunk)
    (hll : latents.length = chunk) (hdl : (dec latents).length = chunk * spl) :
    encode_audio enc z1 spl audio true ov chunk
      = encode_audio enc z1 spl audio false ov chunk ∧
    decode_audio dec z2 spl latents true ov chunk
      = decode_audio dec z2 spl latents false ov chunk := by
  have hovs : ov * spl < chunk * spl := by
    have h1 : ov * spl + 1 * spl ≤ chunk * spl := by
      rw [← Nat.add_mul]
      exact Nat.mul_le_mul_right spl (by omega)
    omega
  constructor
  · have hhops : 0 < chunk * spl - ov * spl := by omega
    have hys : chunk * spl / spl = chunk := Nat.mul_div_cancel _ hspl
    have hsl : slice audio 0 (chunk * spl) = audio := by
      simp [slice, ← hal]
    have henum : ([audio] : List (List γ)).enum = [(0, audio)] := rfl
    have hidx : stitchIdxEnc spl (chunk * spl) (ov * spl) chunk 1 chunk 0
        = ((0, chunk), (0, chunk)) := by
      simp [stitchIdxEnc]
    have hslc : slice (enc audio) 0 chunk = enc audio := by
      simp [slice, ← henc]
    have hset : setSlice (List.replicate chunk z1) 0 (enc audio) = enc audio := by
      simp [setSlice, henc]
    simp [encode_audio, hal,
      chunkStarts_single (chunk * spl) (chunk * spl - ov * spl) hhops,
      Except.map, hys, hsl, henum, stitchStepEnc, henc, hidx, hslc, hset]
  · have hhopd : 0 < chunk - ov := by omega
    have hsl2 : slice latents 0 chunk = latents := by
      simp [slice, ← hll]
    have henum2 : ([latents] : List (List δ)).enum = [(0, latents)] := rfl
    have hidx2 : stitchIdxDec spl chunk ov (chunk * spl) 1 (chunk * spl) 0
        = ((0, chunk * spl), (0, chunk * spl)) := by
      simp [stitchIdxDec]
    have hslc2 : slice (dec latents) 0 (chunk * spl) = dec latents := by
      simp [slice, ← hdl]
    have hset2 : setSlice (List.replicate (chunk * spl) z2) 0 (dec latents)
        = dec latents := by
      simp [setSlice, hdl]
    simp [decode_audio, hll, chunkStarts_single chunk (chunk - ov) hhopd,
      Except.map, hsl2, henum2, stitchStepDec, hdl, hidx2, hslc2, hset2]

/-- Witness for `single_chunk_matches_unchunked`: ratio 2, `chunk_size = 3`,
`overlap = 1`, a 6-sample audio input and a 3-frame latent input, with the
concrete codecs `encW`/`decW`. -/
theorem single_chunk_matches_unchunked_witness :
    ((0:ℕ) < 2 ∧ (1:ℕ) < 3 ∧
      ([0, 1, 2, 3, 4, 5] : List ℕ).length = 3 * 2 ∧
      (encW [0, 1, 2, 3, 4, 5]).length = 3 ∧
      ([7, 8, 9] : List ℕ).length = 3 ∧ (decW [7, 8, 9]).length = 3 * 2) ∧
    (encode_audio encW 0 2 [0, 1, 2, 3, 4, 5] true 1 3
        = encode_audio encW 0 2 [0, 1, 2, 3, 4, 5] false 1 3 ∧
     decode_audio decW 0 2 [7, 8, 9] true 1 3
        = decode_audio decW 0 2 [7, 8, 9] false 1 3) :=
  ⟨by decide,
   single_chunk_matches_unchunked encW decW 0 0 2 3 1 [0, 1, 2, 3, 4, 5]
     [7, 8, 9] (by decide) (by decide) (by decide) (by decide) (by decide)
     (by decide)⟩

theorem flatten_singleton {α β : Type} (g : α → β) (l : List α) :
    (l.map (fun x => [g x])).flatten = l.map g := by
  induction l with
  | nil => rfl
  | cons a t ih => simp [ih]

theorem flatten_map_singleton_eq {α β : Type} (f : List α → List β)
    (g : α → β) (hf : ∀ l, f l = l.map g) (l : List α) :
    (l.map (fun x => f [x])).flatten = f l := by
  simp only [hf, List.map_cons, List.map_nil]
  exact flatten_singleton g l

/-- C9: `AudioAutoencoder.encode` and `.decode` return the same value with
`iterate_batch = True` as with `iterate_batch = False`, under the hypothesis
that every present collaborator (pretransform encode/decode, encoder,
bottleneck decode, decoder) processes batch elements independently, i.e. is
an elementwise map over the batch axis. -/
theorem iterate_batch_equivalent {α : Type} (m : AudioAutoencoder α)
    (hpre : ∀ p, m.pretransform = some p →
      (∃ g, ∀ l, p.enc l = l.map g) ∧ (∃ g, ∀ l, p.dec l = l.map g))
    (henc : ∀ e, m.encoder = some e → ∃ g, ∀ l, e l = l.map g)
    (hbot : ∀ b, m.bottleneck = some b → ∃ g, ∀ l, b.dec l = l.map g)
    (hdec : ∃ g, ∀ l, m.decoder l = l.map g) (x : List α) :
    m.encode true x = m.encode false x ∧
    m.decode true x = m.decode false x := by
  constructor
  · rcases hp : m.pretransform with _ | p <;>
      rcases he : m.encoder with _ | e <;>
        simp only [AudioAutoencoder.encode, hp, he, if_true, if_false]
    · obtain ⟨g, hg⟩ := henc e he
      rw [flatten_map_singleton_eq e g hg]
      simp
    · obtain ⟨⟨g1, hg1⟩, _⟩ := hpre p hp
      rw [flatten_map_singleton_eq p.enc g1 hg1]
      simp
    · obtain ⟨⟨g1, hg1⟩, _⟩ := hpre p hp
      obtain ⟨g, hg⟩ := henc e he
      rw [flatten_map_singleton_eq p.enc g1 hg1,
        flatten_map_singleton_eq e g hg]
      simp
  · obtain ⟨gd, hgd⟩ := hdec
    rcases hb : m.bottleneck with _ | b <;>
      rcases hp : m.pretransform with _ | p <;>
        simp only [AudioAutoencoder.decode, hb, hp, if_true, if_false]
    · rw [flatten_map_singleton_eq m.decoder gd hgd]
      simp
    · obtain ⟨_, g2, hg2⟩ := hpre p hp
      rw [flatten_map_singleton_eq m.decoder gd hgd,
        flatten_map_singleton_eq p.dec g2 hg2]
      simp
    · obtain ⟨g3, hg3⟩ := hbot b hb
      rw [flatten_map_singleton_eq b.dec g3 hg3,
        flatten_map_singleton_eq m.decoder gd hgd]
      simp
    · obtain ⟨g3, hg3⟩ := hbot b hb
      obtain ⟨_, g2, hg2⟩ := hpre p hp
      rw [flatten_map_singleton_eq b.dec g3 hg3,
        flatten_map_singleton_eq m.decoder gd hgd,
        flatten_map_singleton_eq p.dec g2 hg2]
      simp

/-- Witness for `iterate_batch_equivalent` on the concrete model `sampleAE`
and batch `[1, 2, 3]`. -/
theorem iterate_batch_equivalent_witness :
    sampleAE.encode true [1, 2, 3] = sampleAE.encode false [1, 2, 3] ∧
    sampleAE.decode true [1, 2, 3] = sampleAE.decode false [1, 2, 3] :=
  iterate_batch_equivalent sampleAE
    (fun p hp => by
      cases hp
      exact ⟨⟨fun v => v + 1, fun l => rfl⟩, ⟨fun v => v * 2, fun l => rfl⟩⟩)
    (fun e he => by cases he; exact ⟨fun v => v + 3, fun l => rfl⟩)
    (fun b hb => by cases hb; exact ⟨fun v => v + 7, fun l => rfl⟩)
    ⟨fun v => v + 5, fun l => rfl⟩
    [1, 2, 3]

/-- C7 counterexample: a config with well-formed `oobleck` encoder and
decoder entries but no `model.latent_dim`.  `create_autoencoder_from_config`
does raise the descriptive assertion for `latent_dim`, but only after both
the encoder and the decoder modules have been constructed — their weights
are already allocated (the trace is non-empty), refuting "before any encoder
or decoder weights are allocated". -/
theorem missing_latent_dim_after_alloc_example :
    create_autoencoder_from_config cfgMissingLatentDim
      = ([Alloc.encoderWeights, Alloc.decoderWeights],
         .error (.assertionError .latent_dim)) := by decide

/-- C7 (amended): for every config whose encoder and decoder entries
construct successfully, if any of `model.latent_dim`,
`model.downsampling_ratio`, `model.io_channels` or top-level `sample_rate`
is missing, `create_autoencoder_from_config` fails with the descriptive
assertion naming exactly the first missing field in source order
(`latent_dim`, then `downsampling_ratio`, then `io_channels`, then
`sample_rate`) and never silently defaults it — but the failure happens
after the encoder and decoder weights have already been allocated. -/
theorem factory_missing_key_asserts (cfg : AEConfig) (ae : ModelConfig)
    (encCfg decCfg : CodecConfig) (e d : CodecTag)
    (hm : cfg.model = some ae) (he : ae.encoder = some encCfg)
    (hd : ae.decoder = some decCfg)
    (hev : create_encoder_from_config encCfg = .ok e)
    (hdv : create_decoder_from_config decCfg = .ok d)
    (hmiss : ae.latent_dim = none ∨ ae.downsampling_ratio = none ∨
      ae.io_channels = none ∨ cfg.sample_rate = none) :
    (create_autoencoder_from_config cfg).1
        = [Alloc.encoderWeights, Alloc.decoderWeights] ∧
    (create_autoencoder_from_config cfg).2
      = .error (.assertionError
          (if ae.latent_dim = none then .latent_dim
           else if ae.downsampling_ratio = none then .downsampling_ratio
           else if ae.io_channels = none then .io_channels
           else .sample_rate)) := by
  rcases hld : ae.latent_dim with _ | ld
  · simp [create_autoencoder_from_config, hm, he, hd, hev, hdv, hld]
  · rcases hdr : ae.downsampling_ratio with _ | dr
    · simp [create_autoencoder_from_config, hm, he, hd, hev, hdv, hld, hdr]
    · rcases hio : ae.io_channels with _ | io
      · simp [create_autoencoder_from_config, hm, he, hd, hev, hdv, hld,
          hdr, hio]
      · rcases hsr : cfg.sample_rate with _ | sr
        · simp [create_autoencoder_from_config, hm, he, hd, hev, hdv,
            hld, hdr, hio, hsr]
        · exfalso
          rcases hmiss with h | h | h | h <;> simp_all

/-- Witness for `factory_missing_key_asserts` on the concrete config
`cfgMissingLatentDim`: the first (and only) missing field is `latent_dim`
and the assertion names exactly it. -/
theorem factory_missing_key_asserts_witness :
    (create_autoencoder_from_config cfgMissingLatentDim).1
        = [Alloc.encoderWeights, Alloc.decoderWeights] ∧
    (create_autoencoder_from_config cfgMissingLatentDim).2
        = .error (.assertionError .latent_dim) := by
  have h := factory_missing_key_asserts cfgMissingLatentDim _ _ _
    .oobleck .oobleck rfl rfl rfl rfl rfl (Or.inl rfl)
  simpa using h

/-- C6: `DiffusionAutoencoder.decode` never produces a value when the
decoder module is present: line 934 executes `latents = self.decode(latents)`
— a recursive call to the method itself (not to `self.decoder`) — so the
call recurses until the Python stack is exhausted (`RecursionError`) for
every latent input and every stack budget (`fuel`), contradicting the claim
that the call terminates and is a total function of its input. -/
theorem diffusion_decode_never_returns {α : Type} (m : DiffusionAutoencoder α)
    (hdec : m.decoder.isSome = true) :
    ∀ fuel latents, m.decode fuel latents = none := by
  intro fuel
  induction fuel with
  | zero => intro latents; rfl
  | succ f ih =>
    intro latents
    obtain ⟨d, hd⟩ := Option.isSome_iff_exists.1 hdec
    simp only [DiffusionAutoencoder.decode, hd, ih]

/-- Witness for `diffusion_decode_never_returns` on the concrete model
`sampleDiffAE` (decoder present), fuel 7, latents `[1]`. -/
theorem diffusion_decode_never_returns_witness :
    sampleDiffAE.decoder.isSome = true ∧ sampleDiffAE.decode 7 [1] = none :=
  ⟨rfl, diffusion_decode_never_returns sampleDiffAE rfl 7 [1]⟩

end ElucidatedAudio
